import Mathlib

/-!
Verification of the wb-go/wbf resilient message-broker client core.

The Go source is shallowly embedded: pure control flow becomes Lean
functions, `time.Duration` values become `Nat` nanosecond counts,
fallible calls return `Except`/`Option`, the `rand.Int64N` source and
context cancellation become explicit oracle parameters, and the
concurrent reconnect logic of the RabbitMQ client becomes an explicit
interleaving transition system.
-/

namespace Wbf

/-! ### src/retry/retry.go -/

namespace Retry

/-- Observable outcome of one run of `retry.Do`: the returned error
(`none` is Go's `nil`), the number of invocations of `fn`, and the
ordered trace of `time.Sleep` durations. -/
structure DoRun (E : Type) where
  result : Option E
  calls : Nat
  sleeps : List Nat
  deriving DecidableEq

/-- Loop body of `retry.Do` (retry.go).  `res k` is the error returned by
the `k`-th invocation of `fn` (0-based, `none` = success); `next` models
the delay update `time.Duration(float64(delay) * strategy.Backoff)`
(kept abstract because of the float conversion); `fuel` is the number of
loop iterations still allowed (`strategy.Attempts - i`); `last` is the
current value of the `err` variable.  On failure the code sleeps for the
current delay and then updates it, even when this was the last allowed
attempt. -/
def doLoop (res : Nat → Option E) (next : Nat → Nat) :
    Nat → Nat → Nat → List Nat → Option E → DoRun E
  | 0, _d, calls, sleeps, last => ⟨last, calls, sleeps⟩
  | fuel + 1, d, calls, sleeps, _last =>
    match res calls with
    | none => ⟨none, calls + 1, sleeps⟩
    | some e => doLoop res next fuel (next d) (calls + 1) (sleeps ++ [d]) (some e)

/-- `retry.Do` (retry.go): `for i := 0; i < strategy.Attempts; i++`, so a
non-positive `Attempts` runs zero iterations and returns the zero value
of `err`, i.e. success. -/
def Do (res : Nat → Option E) (next : Nat → Nat) (attempts : Int) (delay : Nat) : DoRun E :=
  doLoop res next attempts.toNat delay 0 [] none

/-- The sleep-duration trace produced by `retry.Do` when every attempt
fails: one sleep per failed attempt, starting at `delay` and updated by
`next` each time. -/
def doTrace (next : Nat → Nat) : Nat → Nat → List Nat
  | 0, _d => []
  | fuel + 1, d => d :: doTrace next fuel (next d)

end Retry

/-! ### base64 (encoding/base64 StdEncoding, as used by src/kafka/dlq/dlq.go) -/

namespace B64

/-- Byte value of the standard base64 alphabet character at index `s`
(valid for `s < 64`): `A-Z`, `a-z`, `0-9`, `+`, `/`. -/
def byteOfSextet (s : Nat) : Nat :=
  if s < 26 then s + 65
  else if s < 52 then s + 71
  else if s < 62 then s - 4
  else if s = 62 then 43
  else 47

/-- Inverse alphabet lookup: the sextet value of an alphabet byte, `none`
for bytes outside the alphabet (in particular for the pad byte 61, `=`). -/
def sextetOfByte (c : Nat) : Option Nat :=
  if 65 ≤ c ∧ c ≤ 90 then some (c - 65)
  else if 97 ≤ c ∧ c ≤ 122 then some (c - 71)
  else if 48 ≤ c ∧ c ≤ 57 then some (c + 4)
  else if c = 43 then some 62
  else if c = 47 then some 63
  else none

/-- `base64.StdEncoding.EncodeToString` on a byte list, producing the
byte list of the resulting string: groups of 3 input bytes become 4
alphabet bytes; a trailing group of 1 or 2 bytes is padded with `=` (61). -/
def encode : List Nat → List Nat
  | [] => []
  | [a] => [byteOfSextet (a / 4), byteOfSextet (a % 4 * 16), 61, 61]
  | [a, b] =>
    [byteOfSextet (a / 4), byteOfSextet (a % 4 * 16 + b / 16), byteOfSextet (b % 16 * 4), 61]
  | a :: b :: c :: rest =>
    byteOfSextet (a / 4) :: byteOfSextet (a % 4 * 16 + b / 16) ::
      byteOfSextet (b % 16 * 4 + c / 64) :: byteOfSextet (c % 64) :: encode rest

/-- Standard base64 decoding of a padded byte string: `none` on malformed
input, otherwise the decoded byte list. -/
def decode : List Nat → Option (List Nat)
  | [] => some []
  | c1 :: c2 :: c3 :: c4 :: rest =>
    match sextetOfByte c1, sextetOfByte c2 with
    | some s1, some s2 =>
      if c3 = 61 then
        if c4 = 61 ∧ rest = [] then some [s1 * 4 + s2 / 16] else none
      else
        match sextetOfByte c3 with
        | some s3 =>
          if c4 = 61 then
            if rest = [] then some [s1 * 4 + s2 / 16, s2 % 16 * 16 + s3 / 4] else none
          else
            match sextetOfByte c4 with
            | some s4 =>
              (decode rest).map
                (fun tail =>
                  (s1 * 4 + s2 / 16) :: (s2 % 16 * 16 + s3 / 4) :: (s3 % 4 * 64 + s4) :: tail)
            | none => none
        | none => none
    | _, _ => none
  | _ => none

end B64

/-! ### src/kafka/kafka-v2 (producer.go, options_processor.go) and src/kafka/dlq/dlq.go -/

namespace Kafkav2

/-- The parts of a `kafka.Message` that the processor and the DLQ read:
topic, key and value (bytes modelled as `Nat` values below 256). -/
structure Msg where
  topic : String
  key : List Nat
  value : List Nat
  deriving DecidableEq

/-- The structured payload built by `dlq.PublishError` (dlq.go):
`original_topic`, `error`, `attempt`, `data_base64` (the base64 encoding
of the original message value).  The timestamp field is not modelled. -/
structure DlqEnvelope (E : Type) where
  originalTopic : String
  errText : E
  attempt : Nat
  dataBase64 : List Nat
  deriving DecidableEq

/-- Envelope construction in `dlq.PublishError` for message `msg`, error
`e` and attempt count `attempt`.  JSON marshalling of this payload cannot
fail for these well-typed fields, so the fallback branch of the source is
not reachable here. -/
def mkEnvelope (msg : Msg) (e : E) (attempt : Nat) : DlqEnvelope E :=
  ⟨msg.topic, e, attempt, B64.encode msg.value⟩

/-- How the retry loop of `Processor.processWithRetry` terminated. -/
inductive LoopExit (E : Type)
  | success (calls : Nat) (sleeps : List (Nat × Nat))
  | cancelled (calls : Nat) (sleeps : List (Nat × Nat))
  | exhausted (calls : Nat) (sleeps : List (Nat × Nat)) (last : Option E)
  deriving DecidableEq

/-- The `for attempt := 1; attempt <= p.maxAttempts` loop of
`Processor.processWithRetry` (producer.go).  `hres k` is the handler
result of the `k`-th invocation (0-based); `cancel k` tells whether
`ctx.Done()` wins the `select` during the sleep following that
invocation; `oracle k b` models `rand.Int64N(b)` there (a value in
`[0, b)` for `b > 0`); `fuel` is the number of attempts still allowed.
Each recorded sleep is the pair (currentBackoff at that point, slept
jitter `min (oracle k (cb*2)) maxD`); after the sleep the backoff
becomes `min (cb*2) maxD`.  When the attempt that failed was the last
one (`attempt >= p.maxAttempts`) the loop breaks with no further sleep. -/
def pwrLoop (hres : Nat → Option E) (cancel : Nat → Bool) (oracle : Nat → Nat → Nat)
    (maxD : Nat) : Nat → Nat → Nat → List (Nat × Nat) → Option E → LoopExit E
  | 0, _cb, calls, sleeps, last => .exhausted calls sleeps last
  | fuel + 1, cb, calls, sleeps, _last =>
    match hres calls with
    | none => .success (calls + 1) sleeps
    | some e =>
      if fuel = 0 then .exhausted (calls + 1) sleeps (some e)
      else
        let j := min (oracle calls (cb * 2)) maxD
        if cancel calls then .cancelled (calls + 1) sleeps
        else pwrLoop hres cancel oracle maxD fuel (min (cb * 2) maxD) (calls + 1)
          (sleeps ++ [(cb, j)]) (some e)

/-- Observable outcome of `Processor.processWithRetry`: number of handler
invocations, sleep trace, whether the run ended on context cancellation,
the final value of `lastErr`, the envelope handed to `dlq.PublishError`
(if any), and whether `consumer.Commit` was invoked.  `panicked` marks
the unreachable-for-validated-configs branch in which `PublishError`
would dereference a nil error (`maxAttempts = 0`). -/
structure PRun (E : Type) where
  calls : Nat
  sleeps : List (Nat × Nat)
  cancelled : Bool
  lastErr : Option E
  dlqEnv : Option (DlqEnvelope E)
  committed : Bool
  panicked : Bool
  deriving DecidableEq

/-- `Processor.processWithRetry` (producer.go).  `dlq = none` models a
nil `p.dlq`; `dlq = some sendOk` models a configured DLQ whose
`producer.Send` succeeds iff `sendOk`.  On handler success the offset is
committed; on exhaustion with a configured DLQ the envelope (with
`attempt := p.maxAttempts`) is published, and the offset is committed
only when that publish succeeds; without a DLQ the offset is committed
directly.  Commit errors are only logged, so `committed` records that
the commit call was made. -/
def processWithRetry (hres : Nat → Option E) (cancel : Nat → Bool) (oracle : Nat → Nat → Nat)
    (maxA base maxD : Nat) (dlq : Option Bool) (msg : Msg) : PRun E :=
  match pwrLoop hres cancel oracle maxD maxA base 0 [] none with
  | .success calls sleeps => ⟨calls, sleeps, false, none, none, true, false⟩
  | .cancelled calls sleeps => ⟨calls, sleeps, true, none, none, false, false⟩
  | .exhausted calls sleeps last =>
    match dlq, last with
    | none, _ => ⟨calls, sleeps, false, last, none, true, false⟩
    | some _, none => ⟨calls, sleeps, false, none, none, false, true⟩
    | some sendOk, some e =>
      if sendOk then ⟨calls, sleeps, false, some e, some (mkEnvelope msg e maxA), true, false⟩
      else ⟨calls, sleeps, false, some e, some (mkEnvelope msg e maxA), false, false⟩

/-- The inter-attempt sleep trace of an always-failing, never-cancelled
run of `processWithRetry`: one (backoff, jitter) pair per sleep, with one
fewer sleep than attempts. -/
def pwrTrace (oracle : Nat → Nat → Nat) (maxD : Nat) : Nat → Nat → Nat → List (Nat × Nat)
  | 0, _cb, _calls => []
  | 1, _cb, _calls => []
  | fuel + 2, cb, calls =>
    (cb, min (oracle calls (cb * 2)) maxD) ::
      pwrTrace oracle maxD (fuel + 1) (min (cb * 2) maxD) (calls + 1)

/-- The validation errors of options_processor.go (and, identically, of
the transaction manager's options file in src/unnamed/part_003). -/
inductive VErr
  | invalidMaxAttempts
  | invalidBaseRetryDelay
  | invalidMaxRetryDelay
  | baseExceedsMax
  deriving DecidableEq

/-- The retry-policy fields of a `Processor` (durations in nanoseconds as
`Int`, so that the non-positive values rejected by validation are
representable). -/
structure PCfg where
  maxAttempts : Int
  baseRetryDelay : Int
  maxRetryDelay : Int
  deriving DecidableEq

/-- Defaults applied by `NewProcessor`: 3 attempts, 10ms base delay,
100ms max delay. -/
def defaultPCfg : PCfg := ⟨3, 10000000, 100000000⟩

/-- `Processor.validate` (options_processor.go): checks run in source
order, each returning its dedicated error. -/
def validate (c : PCfg) : Except VErr Unit :=
  if c.maxAttempts ≤ 0 then .error .invalidMaxAttempts
  else if c.baseRetryDelay ≤ 0 then .error .invalidBaseRetryDelay
  else if c.maxRetryDelay ≤ 0 then .error .invalidMaxRetryDelay
  else if c.baseRetryDelay > c.maxRetryDelay then .error .baseExceedsMax
  else .ok ()

/-- `NewProcessor` (producer.go) restricted to its retry-policy fields:
start from the defaults, apply the functional options in order, then
validate; return the configured instance only when validation passes. -/
def newProcessor (opts : List (PCfg → PCfg)) : Except VErr PCfg :=
  let p := List.foldl (fun acc o => o acc) defaultPCfg opts
  match validate p with
  | .error e => .error e
  | .ok _ => .ok p

/-- The functional option `MaxAttempts` (options_processor.go). -/
def maxAttemptsOpt (n : Int) : PCfg → PCfg := fun c => { c with maxAttempts := n }

/-- The functional option `BaseRetryDelay` (options_processor.go). -/
def baseRetryDelayOpt (d : Int) : PCfg → PCfg := fun c => { c with baseRetryDelay := d }

/-- The functional option `MaxRetryDelay` (options_processor.go). -/
def maxRetryDelayOpt (d : Int) : PCfg → PCfg := fun c => { c with maxRetryDelay := d }

end Kafkav2

/-! ### The transaction manager of src/unnamed/part_003 -/

namespace Tx

/-- Result of `manager.ExecuteInTransaction`: success, the error of the
last attempt (returned when the error is non-retryable or attempts are
exhausted), the context's error (returned when cancellation wins the
inter-attempt `select`), or the post-loop wrap (unreachable for
validated configurations since the loop returns at
`attempt == maxAttempts`). -/
inductive TxResult (E : Type)
  | ok (calls : Nat)
  | opErr (calls : Nat) (e : E)
  | ctxCancelled (calls : Nat)
  | wrapped (calls : Nat) (last : Option E)
  deriving DecidableEq

/-- The attempt loop of `manager.ExecuteInTransaction` (part_003).
`res k` is the result of the `k`-th `doTransaction` call; `retryable`
is `isRetryableError`; `cancel k` tells whether `ctx.Done()` wins the
`select` during the sleep after that attempt; `oracle k b` models
`rand.Int64N(b)`.  On a failed attempt the error is returned unchanged
when it is non-retryable or this was the last attempt; otherwise the
loop sleeps `min (rand [0, cb*2)) maxD` and updates the backoff to
`min (cb*2) maxD` (the update happens only in the sleep branch of the
`select`). -/
def txLoop (res : Nat → Option E) (retryable : E → Bool) (cancel : Nat → Bool)
    (oracle : Nat → Nat → Nat) (maxD : Nat) :
    Nat → Nat → Nat → Option E → TxResult E
  | 0, _cb, calls, last => .wrapped calls last
  | fuel + 1, cb, calls, _last =>
    match res calls with
    | none => .ok (calls + 1)
    | some e =>
      if retryable e = false ∨ fuel = 0 then .opErr (calls + 1) e
      else if cancel calls then .ctxCancelled (calls + 1)
      else txLoop res retryable cancel oracle maxD fuel (min (cb * 2) maxD) (calls + 1) (some e)

/-- `manager.ExecuteInTransaction` (part_003), starting the loop at
attempt 1 with `currentBackoff = baseRetryDelay`. -/
def executeInTransaction (res : Nat → Option E) (retryable : E → Bool) (cancel : Nat → Bool)
    (oracle : Nat → Nat → Nat) (maxA base maxD : Nat) : TxResult E :=
  txLoop res retryable cancel oracle maxD maxA base 0 none

/-- `manager.validate` of the transaction options (part_003) — textually
identical to the kafkav2 processor validation, over the same field
shape. -/
def validate (c : Kafkav2.PCfg) : Except Kafkav2.VErr Unit :=
  if c.maxAttempts ≤ 0 then .error .invalidMaxAttempts
  else if c.baseRetryDelay ≤ 0 then .error .invalidBaseRetryDelay
  else if c.maxRetryDelay ≤ 0 then .error .invalidMaxRetryDelay
  else if c.baseRetryDelay > c.maxRetryDelay then .error .baseExceedsMax
  else .ok ()

/-- `NewManager` (part_003) restricted to its retry-policy fields:
defaults, then options in order, then validation. -/
def newManager (opts : List (Kafkav2.PCfg → Kafkav2.PCfg)) : Except Kafkav2.VErr Kafkav2.PCfg :=
  let p := List.foldl (fun acc o => o acc) Kafkav2.defaultPCfg opts
  match validate p with
  | .error e => .error e
  | .ok _ => .ok p

end Tx

/-! ### src/rabbitmq/client.go and src/rabbitmq/errors.go -/

namespace Rabbit

/-- Errors observable from `GetChannel`/`Close`: the package sentinels
`ErrClientClosed` and `ErrChannelLost` (errors.go), and `transport` for
any error produced by the amqp091 library itself.  The sentinels are
fresh `errors.New` values, so the transport can never return them. -/
inductive RErr
  | clientClosed
  | channelLost
  | transport
  deriving DecidableEq

/-- The state of the current `*amqp091.Connection` as far as channel
leasing observes it: whether the connection is still open, and whether
its `Close` call would succeed. -/
structure Conn where
  isOpen : Bool
  closeOk : Bool
  deriving DecidableEq

/-- `amqp091.Connection.Channel` modelled: an open connection leases a
channel; a dropped connection reports the transport's own
closed-connection error (never a sentinel of this package). -/
def Conn.channel (c : Conn) : Except RErr Unit :=
  if c.isOpen then .ok () else .error .transport

/-- `amqp091.Connection.Close` modelled: succeeds iff `closeOk`. -/
def Conn.closeConn (c : Conn) : Except RErr Unit :=
  if c.closeOk then .ok () else .error .transport

/-- The fields of `RabbitClient` that `GetChannel` and `Close` inspect
or mutate: the `closed` atomic flag and the current connection pointer
(`none` models a nil `c.conn`), plus counters for the observable side
effects of `Close` (context cancellations and connection closes). -/
structure ClientState where
  closed : Bool
  conn : Option Conn
  cancelCount : Nat
  connCloseCount : Nat
  deriving DecidableEq

/-- `RabbitClient.GetChannel` (client.go): `ErrClientClosed` when the
closed flag is set; `ErrChannelLost` when the connection pointer is nil;
otherwise lease a channel from the current connection, whatever its
actual health. -/
def getChannel (s : ClientState) : Except RErr Unit :=
  if s.closed then .error .clientClosed
  else
    match s.conn with
    | none => .error .channelLost
    | some c => c.channel

/-- `RabbitClient.Close` (client.go): `closed.CompareAndSwap(false, true)`
fails on every call after the first, returning nil with no further
effect; the first call cancels the client context and closes the current
connection if present, returning that close's result. -/
def close (s : ClientState) : Except RErr Unit × ClientState :=
  if s.closed then (.ok (), s)
  else
    let s1 : ClientState := { s with closed := true, cancelCount := s.cancelCount + 1 }
    match s.conn with
    | some c => (c.closeConn, { s1 with connCloseCount := s1.connCloseCount + 1 })
    | none => (.ok (), s1)

end Rabbit

/-! ### The reconnect concurrency of client.go as an interleaving system

`watchConnection` and `reconnectLoop` race against `Close`.  Each atomic
action of the source (one load of the `closed` flag, one dial, one flag
set) is one transition; a schedule is a list of actions, and every
interleaving of the threads is some schedule.  Only the two events the
claim talks about are recorded: the instant `Close` sets the flag, and
each dial attempt started by `connect()`. -/

namespace Reconnect

/-- Recorded events: the closed flag being set, and a dial attempt. -/
inductive Ev
  | closeSet
  | dial
  deriving DecidableEq

/-- Program counter of the `watchConnection` goroutine: waiting on the
`select`, having read the `closed` flag after a close notification, or
returned. -/
inductive WPc
  | waiting
  | checked (sawClosed : Bool)
  | done
  deriving DecidableEq

/-- Program counter of the `reconnectLoop` goroutine: not yet spawned,
about to evaluate the loop condition, about to call `connect()`, in the
backoff sleep, or returned. -/
inductive LPc
  | notStarted
  | atCheck
  | atDial
  | atSleep
  | exited
  deriving DecidableEq

/-- Shared state of one close-notification / shutdown interleaving. -/
structure SysState where
  closed : Bool
  notified : Bool
  wpc : WPc
  lpc : LPc
  events : List Ev
  deriving DecidableEq

/-- Atomic actions of the three threads of control. -/
inductive Act
  | notify
  | closeCall
  | watcherRecv
  | watcherSpawn
  | watcherDone
  | watcherCtxDone
  | loopCheck
  | loopDialOk
  | loopDialFail
  | loopSleep
  | loopCtxDone
  deriving DecidableEq

/-- One transition: `none` when the action is not enabled in this state.
`notify` delivers the broker's close notification; `closeCall` is the
flag set inside `Close`; `watcherRecv` is the watcher's read of the
`closed` flag after receiving the notification; `watcherSpawn` launches
`reconnectLoop` when that read saw false; `loopCheck` is the loop
condition's read of the flag; `loopDialOk`/`loopDialFail` are the two
outcomes of `connect()`; `loopSleep` lets the backoff timer fire;
`watcherCtxDone`/`loopCtxDone` are the context-cancellation exits. -/
def step (s : SysState) : Act → Option SysState
  | .notify =>
    if s.notified = true then none else some { s with notified := true }
  | .closeCall =>
    if s.closed = true then none
    else some { s with closed := true, events := s.events ++ [Ev.closeSet] }
  | .watcherRecv =>
    if s.notified = true ∧ s.wpc = WPc.waiting then some { s with wpc := WPc.checked s.closed }
    else none
  | .watcherSpawn =>
    if s.wpc = WPc.checked false ∧ s.lpc = LPc.notStarted then
      some { s with wpc := WPc.done, lpc := LPc.atCheck }
    else none
  | .watcherDone =>
    if s.wpc = WPc.checked true then some { s with wpc := WPc.done } else none
  | .watcherCtxDone =>
    if s.wpc = WPc.waiting then some { s with wpc := WPc.done } else none
  | .loopCheck =>
    if s.lpc = LPc.atCheck then
      some { s with lpc := if s.closed then LPc.exited else LPc.atDial }
    else none
  | .loopDialOk =>
    if s.lpc = LPc.atDial then
      some { s with lpc := LPc.exited, events := s.events ++ [Ev.dial] }
    else none
  | .loopDialFail =>
    if s.lpc = LPc.atDial then
      some { s with lpc := LPc.atSleep, events := s.events ++ [Ev.dial] }
    else none
  | .loopSleep =>
    if s.lpc = LPc.atSleep then some { s with lpc := LPc.atCheck } else none
  | .loopCtxDone =>
    if s.lpc = LPc.atSleep then some { s with lpc := LPc.exited } else none

/-- The state at client steady-state: connected, flag clear, watcher
waiting, no reconnect loop running. -/
def init : SysState := ⟨false, false, WPc.waiting, LPc.notStarted, []⟩

/-- Run a schedule from a state; `none` when some action is not enabled. -/
def run (s : SysState) : List Act → Option SysState
  | [] => some s
  | a :: rest =>
    match step s a with
    | none => none
    | some s2 => run s2 rest

/-- Number of `dial` events in a list. -/
def countDial : List Ev → Nat
  | [] => 0
  | Ev.dial :: r => countDial r + 1
  | Ev.closeSet :: r => countDial r

/-- Number of dial events strictly after the first `closeSet` event. -/
def dialsAfterClose : List Ev → Nat
  | [] => 0
  | Ev.closeSet :: r => countDial r
  | Ev.dial :: r => dialsAfterClose r

/-- One when the reconnect loop is committed to a dial it has not yet
performed (its program counter sits at the `connect()` call). -/
def dialPending : LPc → Nat
  | LPc.atDial => 1
  | _ => 0

/-- The claim as stated: in every schedulable interleaving, once `Close`
has set the closed flag no dial attempt is ever initiated. -/
def NoDialAfterClose : Prop :=
  ∀ tr : List Act, ∀ s : SysState, run init tr = some s → dialsAfterClose s.events = 0

/-- A schedule in which the flag is set between the reconnect loop's
condition check and its dial: notification, watcher reads false, loop
spawned, loop condition reads false, `Close` sets the flag, and only
then does `connect()` start dialing. -/
def raceTrace : List Act :=
  [Act.notify, Act.watcherRecv, Act.watcherSpawn, Act.loopCheck, Act.closeCall, Act.loopDialFail]

end Reconnect

/-! ### Formalizations of claim statements that the code refutes -/

/-- The invalidity condition named by claim C8: any non-positive field,
or a base delay exceeding the max delay. -/
def BadCfg (c : Kafkav2.PCfg) : Prop :=
  c.maxAttempts ≤ 0 ∨ c.baseRetryDelay ≤ 0 ∨ c.maxRetryDelay ≤ 0 ∨
    c.baseRetryDelay > c.maxRetryDelay

/-- Claim C3's "sleeps only between attempts" read on `retry.Do`: an
always-failing run of `N ≥ 1` attempts would perform `N - 1` sleeps. -/
def DoSleepsOnlyBetweenAttempts : Prop :=
  ∀ (f : Nat → Nat) (next : Nat → Nat) (N : Nat) (d : Nat), 1 ≤ N →
    (Retry.Do (fun k => some (f k)) next (N : Int) d).sleeps.length = N - 1

/-- Claim C6 as stated: `GetChannel` returns `ErrClientClosed` whenever
the client is shut down, returns `ErrChannelLost` whenever there is no
current open connection, and otherwise leases a channel from the current
connection. -/
def ClaimC6 : Prop :=
  ∀ s : Rabbit.ClientState,
    (s.closed = true → Rabbit.getChannel s = .error .clientClosed)
    ∧ (s.closed = false → (∀ c, s.conn = some c → c.isOpen = false) →
        Rabbit.getChannel s = .error .channelLost)
    ∧ (s.closed = false → ∀ c, s.conn = some c → c.isOpen = true →
        Rabbit.getChannel s = c.channel)

/-! ## Theorems -/

namespace B64

theorem sextet_round : ∀ s, s < 64 → sextetOfByte (byteOfSextet s) = some s := by decide

theorem byteOfSextet_ne_pad : ∀ s, s < 64 → byteOfSextet s ≠ 61 := by decide

/-- Standard base64 decoding inverts encoding on every byte list. -/
theorem decode_encode : ∀ bs : List Nat, (∀ x ∈ bs, x < 256) → decode (encode bs) = some bs
  | [] => fun _ => rfl
  | [a] => fun h => by
    have ha : a < 256 := h a (by simp)
    have e1 := sextet_round (a / 4) (by omega)
    have e2 := sextet_round (a % 4 * 16) (by omega)
    simp only [encode, decode, e1, e2]
    simp
    omega
  | [a, b] => fun h => by
    have ha : a < 256 := h a (by simp)
    have hb : b < 256 := h b (by simp)
    have e1 := sextet_round (a / 4) (by omega)
    have e2 := sextet_round (a % 4 * 16 + b / 16) (by omega)
    have e3 := sextet_round (b % 16 * 4) (by omega)
    have n3 := byteOfSextet_ne_pad (b % 16 * 4) (by omega)
    simp only [encode, decode, e1, e2, e3, if_neg n3]
    simp
    omega
  | a :: b :: c :: rest => fun h => by
    have ha : a < 256 := h a (by simp)
    have hb : b < 256 := h b (by simp)
    have hc : c < 256 := h c (by simp)
    have ih := decode_encode rest (fun x hx => h x (by simp [hx]))
    have e1 := sextet_round (a / 4) (by omega)
    have e2 := sextet_round (a % 4 * 16 + b / 16) (by omega)
    have e3 := sextet_round (b % 16 * 4 + c / 64) (by omega)
    have e4 := sextet_round (c % 64) (by omega)
    have n3 := byteOfSextet_ne_pad (b % 16 * 4 + c / 64) (by omega)
    have n4 := byteOfSextet_ne_pad (c % 64) (by omega)
    simp only [encode, decode, e1, e2, e3, e4, if_neg n3, if_neg n4, ih, Option.map_some]
    simp
    omega

end B64

namespace Retry

/-- The trace of `retry.Do` sleeps has one entry per failed attempt. -/
theorem doTrace_length (next : Nat → Nat) :
    ∀ fuel d, (doTrace next fuel d).length = fuel
  | 0, _ => rfl
  | fuel + 1, d => by simp [doTrace, doTrace_length next fuel]

/-- An always-failing run of the `retry.Do` loop makes one call per unit
of fuel, sleeps once per call (including after the last one), and ends
holding the error of the last call. -/
theorem doLoop_fail {E : Type} (res : Nat → Option E) (f : Nat → E) (next : Nat → Nat)
    (hf : ∀ k, res k = some (f k)) :
    ∀ fuel d calls sleeps last, 1 ≤ fuel →
      doLoop res next fuel d calls sleeps last =
        ⟨some (f (calls + fuel - 1)), calls + fuel, sleeps ++ doTrace next fuel d⟩ := by
  intro fuel
  induction fuel with
  | zero => omega
  | succ n ih =>
    intro d calls sleeps last _
    have hstep : doLoop res next (n + 1) d calls sleeps last =
        doLoop res next n (next d) (calls + 1) (sleeps ++ [d]) (some (f calls)) := by
      rw [doLoop, hf calls]
    rw [hstep]
    rcases Nat.eq_zero_or_pos n with hn | hn
    · subst hn
      simp [doLoop, doTrace]
    · rw [ih (next d) (calls + 1) (sleeps ++ [d]) (some (f calls)) hn]
      simp [doTrace]
      omega

/-- `retry.Do` on an always-failing operation with `N ≥ 1` attempts:
`N` calls, the last call's error, and `N` sleeps along `doTrace`. -/
theorem do_fail {E : Type} (f : Nat → E) (next : Nat → Nat) (N : Nat) (d : Nat) (hN : 1 ≤ N) :
    Do (fun k => some (f k)) next (N : Int) d =
      ⟨some (f (N - 1)), N, doTrace next N d⟩ := by
  rw [Do, Int.toNat_natCast,
    doLoop_fail (fun k => some (f k)) f next (fun k => rfl) N d 0 [] none hN]
  simp

end Retry

namespace Kafkav2

/-- The exhaustion sleep trace has one entry fewer than the fuel. -/
theorem pwrTrace_length (oracle : Nat → Nat → Nat) (maxD : Nat) :
    ∀ fuel cb calls, (pwrTrace oracle maxD fuel cb calls).length = fuel - 1
  | 0, _, _ => rfl
  | 1, _, _ => rfl
  | fuel + 2, cb, calls => by
    simp [pwrTrace, pwrTrace_length oracle maxD (fuel + 1)]

/-- Every recorded (backoff, jitter) pair of the exhaustion trace keeps
the jitter below the doubled backoff and at or below the max delay. -/
theorem pwrTrace_bounds (oracle : Nat → Nat → Nat) (maxD : Nat)
    (horacle : ∀ k b, 0 < b → oracle k b < b) (hmaxD : 1 ≤ maxD) :
    ∀ fuel cb calls, 1 ≤ cb →
      ∀ p ∈ pwrTrace oracle maxD fuel cb calls, p.2 ≤ maxD ∧ p.2 < p.1 * 2
  | 0, _, _ => by intro _ p hp; simp [pwrTrace] at hp
  | 1, _, _ => by intro _ p hp; simp [pwrTrace] at hp
  | fuel + 2, cb, calls => by
    intro hcb p hp
    rw [pwrTrace] at hp
    rcases List.mem_cons.1 hp with hhead | htail
    · subst hhead
      refine ⟨Nat.min_le_right _ _, ?_⟩
      have := horacle calls (cb * 2) (by omega)
      have := Nat.min_le_left (oracle calls (cb * 2)) maxD
      omega
    · exact pwrTrace_bounds oracle maxD horacle hmaxD (fuel + 1) (min (cb * 2) maxD) (calls + 1)
        (by omega) p htail

/-- An always-failing, never-cancelled run of the processor's retry loop
exhausts: one call per unit of fuel, the sleep trace `pwrTrace`, and the
error of the final call. -/
theorem pwrLoop_exhaust {E : Type} (hres : Nat → Option E) (f : Nat → E)
    (cancel : Nat → Bool) (oracle : Nat → Nat → Nat) (maxD : Nat)
    (hf : ∀ k, hres k = some (f k)) (hc : ∀ k, cancel k = false) :
    ∀ fuel cb calls sleeps last, 1 ≤ fuel →
      pwrLoop hres cancel oracle maxD fuel cb calls sleeps last =
        .exhausted (calls + fuel) (sleeps ++ pwrTrace oracle maxD fuel cb calls)
          (some (f (calls + fuel - 1))) := by
  intro fuel
  induction fuel with
  | zero => omega
  | succ n ih =>
    intro cb calls sleeps last _
    rcases Nat.eq_zero_or_pos n with hn | hn
    · subst hn
      have hstep : pwrLoop hres cancel oracle maxD 1 cb calls sleeps last =
          .exhausted (calls + 1) sleeps (some (f calls)) := by
        rw [pwrLoop, hf calls]
        rfl
      rw [hstep]
      simp [pwrTrace]
    · have hn0 : n ≠ 0 := by omega
      have hstep : pwrLoop hres cancel oracle maxD (n + 1) cb calls sleeps last =
          pwrLoop hres cancel oracle maxD n (min (cb * 2) maxD) (calls + 1)
            (sleeps ++ [(cb, min (oracle calls (cb * 2)) maxD)]) (some (f calls)) := by
        rw [pwrLoop, hf calls]
        simp [hn0, hc calls]
      rw [hstep]
      rw [ih (min (cb * 2) maxD) (calls + 1) (sleeps ++ [(cb, min (oracle calls (cb * 2)) maxD)])
        (some (f calls)) hn]
      have htr : pwrTrace oracle maxD (n + 1) cb calls =
          (cb, min (oracle calls (cb * 2)) maxD) ::
            pwrTrace oracle maxD n (min (cb * 2) maxD) (calls + 1) := by
        match n, hn with
        | m + 1, _ => rfl
      rw [htr]
      simp
      omega

/-- When every attempt fails and the context fires during the sleep that
follows attempt `j` (with `j` strictly before the last attempt), the
processor's loop returns through the cancellation branch after exactly
`j` handler invocations. -/
theorem pwrLoop_cancel {E : Type} (hres : Nat → Option E) (e : Nat → E)
    (cancel : Nat → Bool) (oracle : Nat → Nat → Nat) (maxD : Nat)
    (hf : ∀ k, hres k = some (e k)) :
    ∀ j, 1 ≤ j → ∀ fuel cb calls sleeps last, j + 1 ≤ fuel →
      (∀ i, i + 1 < j → cancel (calls + i) = false) →
      cancel (calls + j - 1) = true →
      ∃ sl, pwrLoop hres cancel oracle maxD fuel cb calls sleeps last =
        .cancelled (calls + j) sl := by
  intro j
  induction j with
  | zero => omega
  | succ jj ih =>
    intro _ fuel cb calls sleeps last hfuel hmid hfire
    obtain ⟨m, rfl⟩ : ∃ m, fuel = m + 1 := ⟨fuel - 1, by omega⟩
    have hm0 : m ≠ 0 := by omega
    rcases Nat.eq_zero_or_pos jj with hjj | hjj
    · subst hjj
      have hcan : cancel calls = true := by simpa using hfire
      refine ⟨sleeps, ?_⟩
      rw [pwrLoop, hf calls]
      simp [hm0, hcan]
    · have hcan : cancel calls = false := hmid 0 (by omega)
      have hstep : pwrLoop hres cancel oracle maxD (m + 1) cb calls sleeps last =
          pwrLoop hres cancel oracle maxD m (min (cb * 2) maxD) (calls + 1)
            (sleeps ++ [(cb, min (oracle calls (cb * 2)) maxD)]) (some (e calls)) := by
        rw [pwrLoop, hf calls]
        simp [hm0, hcan]
      obtain ⟨sl, hsl⟩ := ih hjj m (min (cb * 2) maxD) (calls + 1)
        (sleeps ++ [(cb, min (oracle calls (cb * 2)) maxD)]) (some (e calls))
        (by omega)
        (fun i hi => by
          have := hmid (i + 1) (by omega)
          simpa [Nat.add_assoc, Nat.add_comm 1 i] using this)
        (by
          have : calls + 1 + jj - 1 = calls + (jj + 1) - 1 := by omega
          rw [this]
          exact hfire)
      refine ⟨sl, ?_⟩
      rw [hstep, hsl]
      congr 1
      omega

end Kafkav2

namespace Tx

/-- When every attempt fails with a retryable error and the context fires
during the sleep after attempt `j` (with `j` strictly before the last
attempt), `ExecuteInTransaction`'s loop returns the context's error
after exactly `j` invocations. -/
theorem txLoop_cancel {E : Type} (res : Nat → Option E) (e : Nat → E)
    (retryable : E → Bool) (cancel : Nat → Bool) (oracle : Nat → Nat → Nat) (maxD : Nat)
    (hf : ∀ k, res k = some (e k)) (hr : ∀ k, retryable (e k) = true) :
    ∀ j, 1 ≤ j → ∀ fuel cb calls last, j + 1 ≤ fuel →
      (∀ i, i + 1 < j → cancel (calls + i) = false) →
      cancel (calls + j - 1) = true →
      txLoop res retryable cancel oracle maxD fuel cb calls last =
        .ctxCancelled (calls + j) := by
  intro j
  induction j with
  | zero => omega
  | succ jj ih =>
    intro _ fuel cb calls last hfuel hmid hfire
    obtain ⟨m, rfl⟩ : ∃ m, fuel = m + 1 := ⟨fuel - 1, by omega⟩
    have hm0 : m ≠ 0 := by omega
    rcases Nat.eq_zero_or_pos jj with hjj | hjj
    · subst hjj
      have hcan : cancel calls = true := by simpa using hfire
      rw [txLoop, hf calls]
      simp [hm0, hcan, hr calls]
    · have hcan : cancel calls = false := hmid 0 (by omega)
      have hstep : txLoop res retryable cancel oracle maxD (m + 1) cb calls last =
          txLoop res retryable cancel oracle maxD m (min (cb * 2) maxD) (calls + 1)
            (some (e calls)) := by
        rw [txLoop, hf calls]
        simp [hm0, hcan, hr calls]
      rw [hstep, ih hjj m (min (cb * 2) maxD) (calls + 1) (some (e calls))
        (by omega)
        (fun i hi => by
          have := hmid (i + 1) (by omega)
          simpa [Nat.add_assoc, Nat.add_comm 1 i] using this)
        (by
          have : calls + 1 + jj - 1 = calls + (jj + 1) - 1 := by omega
          rw [this]
          exact hfire)]
      congr 1
      omega

end Tx

namespace Reconnect

theorem countDial_append : ∀ l m : List Ev, countDial (l ++ m) = countDial l + countDial m
  | [], _ => by simp [countDial]
  | Ev.dial :: r, m => by simp [countDial, countDial_append r m]; omega
  | Ev.closeSet :: r, m => by simp [countDial, countDial_append r m]

theorem dac_no_close : ∀ l : List Ev, Ev.closeSet ∉ l → dialsAfterClose l = 0
  | [], _ => rfl
  | Ev.dial :: r, h => by
    simp at h
    simp [dialsAfterClose, dac_no_close r h]
  | Ev.closeSet :: r, h => by simp at h

theorem dac_append_dial_of_close :
    ∀ l : List Ev, Ev.closeSet ∈ l →
      dialsAfterClose (l ++ [Ev.dial]) = dialsAfterClose l + 1
  | [], h => by simp at h
  | Ev.dial :: r, h => by
    simp at h
    simp [dialsAfterClose, dac_append_dial_of_close r h]
  | Ev.closeSet :: r, _ => by
    simp [dialsAfterClose, countDial_append, countDial]

theorem dac_append_close_of_no_close :
    ∀ l : List Ev, Ev.closeSet ∉ l → dialsAfterClose (l ++ [Ev.closeSet]) = 0
  | [], _ => rfl
  | Ev.dial :: r, h => by
    simp at h
    simp [dialsAfterClose, dac_append_close_of_no_close r h]
  | Ev.closeSet :: r, h => by simp at h

theorem dialPending_le (l : LPc) : dialPending l ≤ 1 := by
  cases l <;> simp [dialPending]

/-- Invariant of the reconnect interleaving system: before the flag is
set no `closeSet` event exists; after it, the number of dials already
executed past the flag set, plus the one dial the loop may still be
committed to (program counter at `connect()`), never exceeds one. -/
def Inv (s : SysState) : Prop :=
  (s.closed = false → Ev.closeSet ∉ s.events)
  ∧ (s.closed = true → Ev.closeSet ∈ s.events ∧
      dialsAfterClose s.events + dialPending s.lpc ≤ 1)

theorem inv_step (s : SysState) (a : Act) (s2 : SysState)
    (h : step s a = some s2) (hi : Inv s) : Inv s2 := by
  obtain ⟨hi1, hi2⟩ := hi
  cases a <;> simp only [step] at h
  case notify =>
    split at h
    · exact absurd h (by simp)
    · obtain rfl : { s with notified := true } = s2 := Option.some_injective _ h
      exact ⟨hi1, hi2⟩
  case closeCall =>
    split at h
    · exact absurd h (by simp)
    · next hcl =>
      obtain rfl : { s with closed := true, events := s.events ++ [Ev.closeSet] } = s2 :=
        Option.some_injective _ h
      have hnc : Ev.closeSet ∉ s.events := hi1 (by simpa using hcl)
      refine ⟨by simp, fun _ => ⟨by simp, ?_⟩⟩
      simp only [dac_append_close_of_no_close s.events hnc]
      have := dialPending_le s.lpc
      omega
  case watcherRecv =>
    split at h
    · obtain rfl : { s with wpc := WPc.checked s.closed } = s2 := Option.some_injective _ h
      exact ⟨hi1, hi2⟩
    · exact absurd h (by simp)
  case watcherSpawn =>
    split at h
    · next hcond =>
      obtain rfl : { s with wpc := WPc.done, lpc := LPc.atCheck } = s2 :=
        Option.some_injective _ h
      refine ⟨hi1, fun hc => ⟨(hi2 hc).1, ?_⟩⟩
      have := (hi2 hc).2
      simp only [dialPending]
      omega
    · exact absurd h (by simp)
  case watcherDone =>
    split at h
    · obtain rfl : { s with wpc := WPc.done } = s2 := Option.some_injective _ h
      exact ⟨hi1, hi2⟩
    · exact absurd h (by simp)
  case watcherCtxDone =>
    split at h
    · obtain rfl : { s with wpc := WPc.done } = s2 := Option.some_injective _ h
      exact ⟨hi1, hi2⟩
    · exact absurd h (by simp)
  case loopCheck =>
    split at h
    · obtain rfl : { s with lpc := if s.closed then LPc.exited else LPc.atDial } = s2 :=
        Option.some_injective _ h
      refine ⟨hi1, fun hc => ⟨(hi2 hc).1, ?_⟩⟩
      have h2 := (hi2 hc).2
      have hc2 : s.closed = true := hc
      simp only [hc2, reduceIte, dialPending]
      have := dialPending_le s.lpc
      omega
    · exact absurd h (by simp)
  case loopDialOk =>
    split at h
    · next hpc =>
      obtain rfl : { s with lpc := LPc.exited, events := s.events ++ [Ev.dial] } = s2 :=
        Option.some_injective _ h
      refine ⟨fun hc => ?_, fun hc => ⟨?_, ?_⟩⟩
      · have := hi1 hc
        simp [this]
      · have := (hi2 hc).1
        simp [this]
      · have h2 := (hi2 hc).2
        rw [hpc] at h2
        simp only [dialPending] at h2 ⊢
        simp only [dac_append_dial_of_close s.events (hi2 hc).1]
        omega
    · exact absurd h (by simp)
  case loopDialFail =>
    split at h
    · next hpc =>
      obtain rfl : { s with lpc := LPc.atSleep, events := s.events ++ [Ev.dial] } = s2 :=
        Option.some_injective _ h
      refine ⟨fun hc => ?_, fun hc => ⟨?_, ?_⟩⟩
      · have := hi1 hc
        simp [this]
      · have := (hi2 hc).1
        simp [this]
      · have h2 := (hi2 hc).2
        rw [hpc] at h2
        simp only [dialPending] at h2 ⊢
        simp only [dac_append_dial_of_close s.events (hi2 hc).1]
        omega
    · exact absurd h (by simp)
  case loopSleep =>
    split at h
    · next hpc =>
      obtain rfl : { s with lpc := LPc.atCheck } = s2 := Option.some_injective _ h
      refine ⟨hi1, fun hc => ⟨(hi2 hc).1, ?_⟩⟩
      have h2 := (hi2 hc).2
      rw [hpc] at h2
      simp only [dialPending] at h2 ⊢
      omega
    · exact absurd h (by simp)
  case loopCtxDone =>
    split at h
    · next hpc =>
      obtain rfl : { s with lpc := LPc.exited } = s2 := Option.some_injective _ h
      refine ⟨hi1, fun hc => ⟨(hi2 hc).1, ?_⟩⟩
      have h2 := (hi2 hc).2
      rw [hpc] at h2
      simp only [dialPending] at h2 ⊢
      omega
    · exact absurd h (by simp)

theorem inv_run : ∀ (tr : List Act) (s s2 : SysState),
    run s tr = some s2 → Inv s → Inv s2
  | [], s, s2, h, hi => by
    obtain rfl : s = s2 := Option.some_injective _ h
    exact hi
  | a :: rest, s, s2, h, hi => by
    rw [run] at h
    match hst : step s a with
    | none => rw [hst] at h; exact absurd h (by simp)
    | some s1 =>
      rw [hst] at h
      exact inv_run rest s1 s2 h (inv_step s a s1 hst hi)

theorem inv_init : Inv init := by
  refine ⟨fun _ => by simp [init], fun hc => ?_⟩
  simp [init] at hc

end Reconnect

namespace Kafkav2

/-- Field-wise description of `processWithRetry` on a handler that fails
every attempt, with no cancellation: `maxAttempts` calls, the
`pwrTrace` sleeps, the last call's error, and — with a DLQ configured —
the envelope built from that error with `attempt = maxAttempts`,
committing exactly when the DLQ publish succeeds; with no DLQ the
offset is committed directly. -/
theorem processWithRetry_fail {E : Type} (f : Nat → E) (cancel : Nat → Bool)
    (oracle : Nat → Nat → Nat) (maxA base maxD : Nat) (dlq : Option Bool) (msg : Msg)
    (hA : 1 ≤ maxA) (hc : ∀ k, cancel k = false) :
    letI r := processWithRetry (fun k => some (f k)) cancel oracle maxA base maxD dlq msg
    r.calls = maxA
    ∧ r.sleeps = pwrTrace oracle maxD maxA base 0
    ∧ r.cancelled = false
    ∧ r.lastErr = some (f (maxA - 1))
    ∧ (∀ b, dlq = some b →
        r.dlqEnv = some (mkEnvelope msg (f (maxA - 1)) maxA) ∧ r.committed = b)
    ∧ (dlq = none → r.dlqEnv = none ∧ r.committed = true) := by
  have hex := pwrLoop_exhaust (fun k => some (f k)) f cancel oracle maxD
    (fun _ => rfl) hc maxA base 0 [] none hA
  unfold processWithRetry
  rw [hex]
  rcases dlq with _ | b
  · simp
  · cases b <;> simp

theorem validate_error_iff (c : PCfg) : (∃ e, validate c = .error e) ↔ BadCfg c := by
  unfold validate BadCfg
  split_ifs <;> simp_all

theorem validate_ok_iff (c : PCfg) : validate c = .ok () ↔ ¬ BadCfg c := by
  unfold validate BadCfg
  split_ifs <;> simp_all

theorem newProcessor_error_iff (opts : List (PCfg → PCfg)) :
    (∃ e, newProcessor opts = .error e) ↔
      BadCfg (List.foldl (fun acc o => o acc) defaultPCfg opts) := by
  unfold newProcessor
  cases hv : validate (List.foldl (fun acc o => o acc) defaultPCfg opts) with
  | error e =>
    simp only [hv]
    constructor
    · intro _
      exact (validate_error_iff _).1 ⟨e, hv⟩
    · intro _
      exact ⟨e, rfl⟩
  | ok u =>
    cases u
    simp only [hv]
    constructor
    · rintro ⟨e, he⟩
      exact absurd he (by simp)
    · intro hbad
      exact absurd ((validate_ok_iff _).1 hv) (fun hn => hn hbad)

theorem newProcessor_ok_valid (opts : List (PCfg → PCfg)) (c : PCfg)
    (h : newProcessor opts = .ok c) : validate c = .ok () := by
  simp only [newProcessor] at h
  cases hv : validate (List.foldl (fun acc o => o acc) defaultPCfg opts) with
  | error e => rw [hv] at h; exact absurd h (by simp)
  | ok u =>
    cases u
    rw [hv] at h
    cases h
    exact hv

end Kafkav2

namespace Tx

theorem tx_validate_error_iff (c : Kafkav2.PCfg) :
    (∃ e, validate c = .error e) ↔ BadCfg c := by
  unfold validate BadCfg
  split_ifs <;> simp_all

theorem tx_validate_ok_iff (c : Kafkav2.PCfg) : validate c = .ok () ↔ ¬ BadCfg c := by
  unfold validate BadCfg
  split_ifs <;> simp_all

theorem newManager_error_iff (opts : List (Kafkav2.PCfg → Kafkav2.PCfg)) :
    (∃ e, newManager opts = .error e) ↔
      BadCfg (List.foldl (fun acc o => o acc) Kafkav2.defaultPCfg opts) := by
  unfold newManager
  cases hv : validate (List.foldl (fun acc o => o acc) Kafkav2.defaultPCfg opts) with
  | error e =>
    simp only [hv]
    constructor
    · intro _
      exact (tx_validate_error_iff _).1 ⟨e, hv⟩
    · intro _
      exact ⟨e, rfl⟩
  | ok u =>
    cases u
    simp only [hv]
    constructor
    · rintro ⟨e, he⟩
      exact absurd he (by simp)
    · intro hbad
      exact absurd ((tx_validate_ok_iff _).1 hv) (fun hn => hn hbad)

end Tx

/-! ## Claim theorems -/

/-- C1: when the handler fails on every configured attempt and a
DeadLetterSink is configured, `processWithRetry` publishes a dead-letter
envelope built from the last error; the original message's offset is
committed exactly when that publish succeeds, and is left uncommitted
when the publish fails, leaving the message for redelivery. -/
theorem claim_C1 {E : Type} (f : Nat → E) (cancel : Nat → Bool) (oracle : Nat → Nat → Nat)
    (maxA base maxD : Nat) (sendOk : Bool) (msg : Kafkav2.Msg)
    (hA : 1 ≤ maxA) (hc : ∀ k, cancel k = false) :
    (Kafkav2.processWithRetry (fun k => some (f k)) cancel oracle maxA base maxD
        (some sendOk) msg).dlqEnv =
      some (Kafkav2.mkEnvelope msg (f (maxA - 1)) maxA)
    ∧ (Kafkav2.processWithRetry (fun k => some (f k)) cancel oracle maxA base maxD
        (some sendOk) msg).committed = sendOk := by
  have h := (Kafkav2.processWithRetry_fail f cancel oracle maxA base maxD
    (some sendOk) msg hA hc).2.2.2.2.1 sendOk rfl
  exact h

/-- C1 witness: three failing attempts, DLQ publish failing, no commit. -/
theorem claim_C1_witness :
    (Kafkav2.processWithRetry (E := Nat) (fun _ => some 9) (fun _ => false)
        (fun _ _ => 0) 3 10 100 (some false) ⟨"t", [1], [2]⟩).dlqEnv =
      some (Kafkav2.mkEnvelope ⟨"t", [1], [2]⟩ 9 3)
    ∧ (Kafkav2.processWithRetry (E := Nat) (fun _ => some 9) (fun _ => false)
        (fun _ _ => 0) 3 10 100 (some false) ⟨"t", [1], [2]⟩).committed = false :=
  claim_C1 (fun _ => 9) (fun _ => false) (fun _ _ => 0) 3 10 100 false ⟨"t", [1], [2]⟩
    (by decide) (fun _ => rfl)

/-- C2: with `maxAttempts = N ≥ 1`, an operation failing on every
invocation is invoked exactly `N` times by `retry.Do` and by
`processWithRetry`, and the error returned (`Do`'s result, the
processor's `lastErr` handed to the DLQ path) is that of the last
invocation. -/
theorem claim_C2 {E : Type} (f : Nat → E) (next : Nat → Nat) (N d : Nat)
    (cancel : Nat → Bool) (oracle : Nat → Nat → Nat) (base maxD : Nat)
    (dlq : Option Bool) (msg : Kafkav2.Msg)
    (hN : 1 ≤ N) (hc : ∀ k, cancel k = false) :
    ((Retry.Do (fun k => some (f k)) next (N : Int) d).calls = N
      ∧ (Retry.Do (fun k => some (f k)) next (N : Int) d).result = some (f (N - 1)))
    ∧ ((Kafkav2.processWithRetry (fun k => some (f k)) cancel oracle N base maxD
          dlq msg).calls = N
      ∧ (Kafkav2.processWithRetry (fun k => some (f k)) cancel oracle N base maxD
          dlq msg).lastErr = some (f (N - 1))) := by
  have hdo := Retry.do_fail f next N d hN
  have hp := Kafkav2.processWithRetry_fail f cancel oracle N base maxD dlq msg hN hc
  exact ⟨⟨by rw [hdo], by rw [hdo]⟩, hp.1, hp.2.2.2.1⟩

/-- C2 witness: two failing attempts observed by both executors. -/
theorem claim_C2_witness :
    ((Retry.Do (E := Nat) (fun k => some (k + 5)) (fun x => x * 2) ((2 : Nat) : Int) 7).calls = 2
      ∧ (Retry.Do (E := Nat) (fun k => some (k + 5)) (fun x => x * 2)
          ((2 : Nat) : Int) 7).result = some 6)
    ∧ ((Kafkav2.processWithRetry (E := Nat) (fun k => some (k + 5)) (fun _ => false)
          (fun _ _ => 0) 2 10 100 (some true) ⟨"t", [], [3]⟩).calls = 2
      ∧ (Kafkav2.processWithRetry (E := Nat) (fun k => some (k + 5)) (fun _ => false)
          (fun _ _ => 0) 2 10 100 (some true) ⟨"t", [], [3]⟩).lastErr = some 6) :=
  claim_C2 (fun k => k + 5) (fun x => x * 2) 2 7 (fun _ => false) (fun _ _ => 0)
    10 100 (some true) ⟨"t", [], [3]⟩ (by decide) (fun _ => rfl)

/-- C3 counterexample: `retry.Do` does not sleep only between attempts —
a one-attempt always-failing run performs one sleep (after the final
failed attempt), not zero. -/
theorem claim_C3_counterexample : ¬ DoSleepsOnlyBetweenAttempts := fun h =>
  absurd (h (fun _ => 0) (fun d => d) 1 5 (by decide)) (by decide)

/-- C3 (amended): `retry.Do` sleeps after every failed attempt including
the final one (N sleeps for an always-failing N-attempt run, along the
delay trace), with no jitter and no max-delay cap; `processWithRetry`
does sleep only between attempts (N-1 sleeps), and each of its sleeps is
at most `maxRetryDelay` and strictly below `currentBackoff * 2` — the
sleep can equal `maxRetryDelay`, so the claimed half-open interval
`[0, min(currentDelay*multiplier, maxDelay))` holds in the weakened form
with the cap attained. -/
theorem claim_C3 {E : Type} (f : Nat → E) (next : Nat → Nat) (N d : Nat)
    (cancel : Nat → Bool) (oracle : Nat → Nat → Nat) (base maxD : Nat)
    (dlq : Option Bool) (msg : Kafkav2.Msg)
    (hN : 1 ≤ N) (hc : ∀ k, cancel k = false)
    (hbase : 1 ≤ base) (hmaxD : 1 ≤ maxD)
    (horacle : ∀ k b, 0 < b → oracle k b < b) :
    ((Retry.Do (fun k => some (f k)) next (N : Int) d).sleeps.length = N
      ∧ (Retry.Do (fun k => some (f k)) next (N : Int) d).sleeps = Retry.doTrace next N d)
    ∧ ((Kafkav2.processWithRetry (fun k => some (f k)) cancel oracle N base maxD
          dlq msg).sleeps.length = N - 1
      ∧ ∀ p ∈ (Kafkav2.processWithRetry (fun k => some (f k)) cancel oracle N base maxD
          dlq msg).sleeps, p.2 ≤ maxD ∧ p.2 < p.1 * 2) := by
  have hdo := Retry.do_fail f next N d hN
  have hp := Kafkav2.processWithRetry_fail f cancel oracle N base maxD dlq msg hN hc
  refine ⟨⟨by rw [hdo]; exact Retry.doTrace_length next N d, by rw [hdo]⟩, ?_, ?_⟩
  · rw [hp.2.1]
    exact Kafkav2.pwrTrace_length oracle maxD N base 0
  · rw [hp.2.1]
    exact Kafkav2.pwrTrace_bounds oracle maxD horacle hmaxD N base 0 hbase

/-- C3 witness: a 3-attempt failing run sleeps 3 times in `retry.Do`
(trace 7, 14, 28) and twice in the processor, within the bounds. -/
theorem claim_C3_witness :
    ((Retry.Do (E := Nat) (fun _ => some 0) (fun x => x * 2) ((3 : Nat) : Int) 7).sleeps.length = 3
      ∧ (Retry.Do (E := Nat) (fun _ => some 0) (fun x => x * 2)
          ((3 : Nat) : Int) 7).sleeps = Retry.doTrace (fun x => x * 2) 3 7)
    ∧ ((Kafkav2.processWithRetry (E := Nat) (fun _ => some 0) (fun _ => false)
          (fun _ _ => 0) 3 10 100 none ⟨"t", [], []⟩).sleeps.length = 3 - 1
      ∧ ∀ p ∈ (Kafkav2.processWithRetry (E := Nat) (fun _ => some 0) (fun _ => false)
          (fun _ _ => 0) 3 10 100 none ⟨"t", [], []⟩).sleeps, p.2 ≤ 100 ∧ p.2 < p.1 * 2) :=
  claim_C3 (fun _ => 0) (fun x => x * 2) 3 7 (fun _ => false) (fun _ _ => 0) 10 100
    none ⟨"t", [], []⟩ (by decide) (fun _ => rfl) (by decide) (by decide)
    (fun _ b hb => hb)

/-- C4: if the context fires during the inter-attempt sleep that follows
attempt `j`, `ExecuteInTransaction` returns the context's error (not the
last operation error) after exactly `j` invocations, and
`processWithRetry` returns through its cancellation branch after exactly
`j` invocations with no DLQ publish and no commit. -/
theorem claim_C4 {E : Type} (e : Nat → E) (retryable : E → Bool) (cancel : Nat → Bool)
    (oracle : Nat → Nat → Nat) (maxA base maxD j : Nat) (dlq : Option Bool)
    (msg : Kafkav2.Msg)
    (hr : ∀ k, retryable (e k) = true)
    (hj : 1 ≤ j) (hjA : j + 1 ≤ maxA)
    (hmid : ∀ i, i + 1 < j → cancel i = false) (hfire : cancel (j - 1) = true) :
    Tx.executeInTransaction (fun k => some (e k)) retryable cancel oracle maxA base maxD =
      Tx.TxResult.ctxCancelled j
    ∧ ((Kafkav2.processWithRetry (fun k => some (e k)) cancel oracle maxA base maxD
          dlq msg).cancelled = true
      ∧ (Kafkav2.processWithRetry (fun k => some (e k)) cancel oracle maxA base maxD
          dlq msg).calls = j
      ∧ (Kafkav2.processWithRetry (fun k => some (e k)) cancel oracle maxA base maxD
          dlq msg).dlqEnv = none
      ∧ (Kafkav2.processWithRetry (fun k => some (e k)) cancel oracle maxA base maxD
          dlq msg).committed = false) := by
  constructor
  · have h := Tx.txLoop_cancel (fun k => some (e k)) e retryable cancel oracle maxD
      (fun _ => rfl) hr j hj maxA base 0 none hjA
      (fun i hi => by simpa using hmid i hi) (by simpa using hfire)
    simpa [Tx.executeInTransaction] using h
  · obtain ⟨sl, hsl⟩ := Kafkav2.pwrLoop_cancel (fun k => some (e k)) e cancel oracle maxD
      (fun _ => rfl) j hj maxA base 0 [] none hjA
      (fun i hi => by simpa using hmid i hi) (by simpa using hfire)
    unfold Kafkav2.processWithRetry
    rw [hsl]
    simp

/-- C4 witness: cancellation during the first sleep of a three-attempt
run stops both executors after one invocation. -/
theorem claim_C4_witness :
    Tx.executeInTransaction (E := Nat) (fun k => some k) (fun _ => true)
        (fun k => decide (k = 0)) (fun _ _ => 0) 3 10 100 =
      Tx.TxResult.ctxCancelled 1
    ∧ ((Kafkav2.processWithRetry (E := Nat) (fun k => some k) (fun k => decide (k = 0))
          (fun _ _ => 0) 3 10 100 (some true) ⟨"t", [], []⟩).cancelled = true
      ∧ (Kafkav2.processWithRetry (E := Nat) (fun k => some k) (fun k => decide (k = 0))
          (fun _ _ => 0) 3 10 100 (some true) ⟨"t", [], []⟩).calls = 1
      ∧ (Kafkav2.processWithRetry (E := Nat) (fun k => some k) (fun k => decide (k = 0))
          (fun _ _ => 0) 3 10 100 (some true) ⟨"t", [], []⟩).dlqEnv = none
      ∧ (Kafkav2.processWithRetry (E := Nat) (fun k => some k) (fun k => decide (k = 0))
          (fun _ _ => 0) 3 10 100 (some true) ⟨"t", [], []⟩).committed = false) :=
  claim_C4 (fun k => k) (fun _ => true) (fun k => decide (k = 0)) (fun _ _ => 0)
    3 10 100 1 (some true) ⟨"t", [], []⟩ (fun _ => rfl) (by decide) (by decide)
    (fun i hi => by omega) (by decide)

/-- C5 counterexample: there is an interleaving — close notification,
watcher check, loop spawn, loop condition check, then `Close` setting the
flag, then the dial — in which a dial attempt is initiated after the
closed flag is set, refuting the claim for every interleaving. -/
theorem claim_C5_counterexample : ¬ Reconnect.NoDialAfterClose := fun h =>
  absurd
    (h Reconnect.raceTrace
      ⟨true, true, Reconnect.WPc.done, Reconnect.LPc.atSleep,
        [Reconnect.Ev.closeSet, Reconnect.Ev.dial]⟩ (by decide))
    (by decide)

/-- C5 (amended): after `Close` sets the closed flag, at most one further
dial attempt can be initiated — the one whose closed-flag check preceded
the flag set; every interleaving of one close notification with shutdown
performs at most one dial after the flag is set, and any closed-flag
check made after the flag is set terminates the watcher or the reconnect
loop, so no second dial ever follows. -/
theorem claim_C5 (tr : List Reconnect.Act) (s : Reconnect.SysState)
    (h : Reconnect.run Reconnect.init tr = some s) :
    Reconnect.dialsAfterClose s.events ≤ 1 := by
  have hi := Reconnect.inv_run tr Reconnect.init s h Reconnect.inv_init
  rcases Bool.eq_false_or_eq_true s.closed with hc | hc
  · have h2 := (hi.2 hc).2
    omega
  · rw [Reconnect.dac_no_close s.events (hi.1 hc)]
    omega

/-- C5 witness: the racing schedule itself performs exactly one dial after
the flag set, within the proved bound. -/
theorem claim_C5_witness :
    Reconnect.dialsAfterClose [Reconnect.Ev.closeSet, Reconnect.Ev.dial] ≤ 1 :=
  claim_C5 Reconnect.raceTrace
    ⟨true, true, Reconnect.WPc.done, Reconnect.LPc.atSleep,
      [Reconnect.Ev.closeSet, Reconnect.Ev.dial]⟩ (by decide)

/-- C6 counterexample: a client that is not closed but whose current
connection has dropped (the supervisor is still reconnecting) does not
get `ErrChannelLost` from `GetChannel` — the stale connection is leased
and the transport's own error surfaces instead. -/
theorem claim_C6_counterexample : ¬ ClaimC6 := by
  intro h
  have h2 := (h ⟨false, some ⟨false, true⟩, 0, 0⟩).2.1 rfl
    (fun c hc => by
      have := Option.some_injective _ hc
      rw [← this])
  have h3 : Rabbit.getChannel ⟨false, some ⟨false, true⟩, 0, 0⟩ =
      Except.error Rabbit.RErr.transport := rfl
  rw [h3] at h2
  exact absurd h2 (by simp)

/-- C6 (amended): `GetChannel` returns `ErrClientClosed` whenever the
client is shut down; it returns `ErrChannelLost` exactly when the client
is open and the connection reference is nil; and whenever a connection
reference is present (even a stale, dropped one, as during
reconnection), it leases from that connection, surfacing the transport's
result instead of `ErrChannelLost`. -/
theorem claim_C6 (s : Rabbit.ClientState) :
    (s.closed = true → Rabbit.getChannel s = .error .clientClosed)
    ∧ (s.closed = false → s.conn = none → Rabbit.getChannel s = .error .channelLost)
    ∧ (s.closed = false → ∀ c, s.conn = some c → Rabbit.getChannel s = c.channel)
    ∧ (Rabbit.getChannel s = .error .channelLost ↔ s.closed = false ∧ s.conn = none) := by
  obtain ⟨cl, conn, x, y⟩ := s
  cases cl <;> rcases conn with _ | ⟨o, k⟩ <;>
    simp [Rabbit.getChannel, Rabbit.Conn.channel]
  cases o <;> simp

/-- C6 witness: a closed client yields `ErrClientClosed`; an open client
with a nil connection yields `ErrChannelLost`. -/
theorem claim_C6_witness :
    Rabbit.getChannel ⟨true, none, 0, 0⟩ = .error .clientClosed ∧
      Rabbit.getChannel ⟨false, none, 0, 0⟩ = .error .channelLost :=
  ⟨(claim_C6 ⟨true, none, 0, 0⟩).1 rfl, (claim_C6 ⟨false, none, 0, 0⟩).2.1 rfl rfl⟩

/-- C7: on exhaustion the envelope handed to the DLQ carries
`attempt = maxAttempts`, and base64-decoding its `data_base64` field
recovers exactly the original message body, for every body of bytes. -/
theorem claim_C7 {E : Type} (f : Nat → E) (cancel : Nat → Bool) (oracle : Nat → Nat → Nat)
    (maxA base maxD : Nat) (sendOk : Bool) (msg : Kafkav2.Msg)
    (hA : 1 ≤ maxA) (hc : ∀ k, cancel k = false)
    (hbytes : ∀ x ∈ msg.value, x < 256) :
    ∃ env : Kafkav2.DlqEnvelope E,
      (Kafkav2.processWithRetry (fun k => some (f k)) cancel oracle maxA base maxD
          (some sendOk) msg).dlqEnv = some env
      ∧ env.attempt = maxA
      ∧ B64.decode env.dataBase64 = some msg.value := by
  have h := (Kafkav2.processWithRetry_fail f cancel oracle maxA base maxD
    (some sendOk) msg hA hc).2.2.2.2.1 sendOk rfl
  exact ⟨Kafkav2.mkEnvelope msg (f (maxA - 1)) maxA, h.1, rfl,
    B64.decode_encode msg.value hbytes⟩

/-- C7 witness: a binary body (0, 255, 7, 61) round-trips through the
envelope of a two-attempt exhausted run. -/
theorem claim_C7_witness :
    ∃ env : Kafkav2.DlqEnvelope Nat,
      (Kafkav2.processWithRetry (E := Nat) (fun _ => some 4) (fun _ => false)
          (fun _ _ => 0) 2 10 100 (some true) ⟨"t", [], [0, 255, 7, 61]⟩).dlqEnv = some env
      ∧ env.attempt = 2
      ∧ B64.decode env.dataBase64 = some [0, 255, 7, 61] :=
  claim_C7 (fun _ => 4) (fun _ => false) (fun _ _ => 0) 2 10 100 true
    ⟨"t", [], [0, 255, 7, 61]⟩ (by decide) (fun _ => rfl) (by decide)

/-- C8: both constructors validate the retry policy at creation time:
validation fails exactly when `maxAttempts ≤ 0`, `baseRetryDelay ≤ 0`,
`maxRetryDelay ≤ 0`, or `baseRetryDelay > maxRetryDelay`, and a
constructed instance always carries a configuration that validates. -/
theorem claim_C8 :
    (∀ c : Kafkav2.PCfg,
      ((∃ e, Kafkav2.validate c = .error e) ↔ BadCfg c)
      ∧ (Kafkav2.validate c = .ok () ↔ ¬ BadCfg c)
      ∧ ((∃ e, Tx.validate c = .error e) ↔ BadCfg c)
      ∧ (Tx.validate c = .ok () ↔ ¬ BadCfg c))
    ∧ (∀ opts : List (Kafkav2.PCfg → Kafkav2.PCfg),
      ((∃ e, Kafkav2.newProcessor opts = .error e) ↔
        BadCfg (List.foldl (fun acc o => o acc) Kafkav2.defaultPCfg opts))
      ∧ ((∃ e, Tx.newManager opts = .error e) ↔
        BadCfg (List.foldl (fun acc o => o acc) Kafkav2.defaultPCfg opts))
      ∧ (∀ c, Kafkav2.newProcessor opts = .ok c → Kafkav2.validate c = .ok ())) :=
  ⟨fun c => ⟨Kafkav2.validate_error_iff c, Kafkav2.validate_ok_iff c,
      Tx.tx_validate_error_iff c, Tx.tx_validate_ok_iff c⟩,
    fun opts => ⟨Kafkav2.newProcessor_error_iff opts, Tx.newManager_error_iff opts,
      fun c h => Kafkav2.newProcessor_ok_valid opts c h⟩⟩

/-- C8 witness: zero attempts are rejected, the defaults are accepted,
and a constructor run with a base delay above the max delay errors. -/
theorem claim_C8_witness :
    (∃ e, Kafkav2.validate ⟨0, 10000000, 100000000⟩ = .error e)
    ∧ Kafkav2.validate Kafkav2.defaultPCfg = .ok ()
    ∧ (∃ e, Kafkav2.newProcessor [Kafkav2.baseRetryDelayOpt 200000000] = .error e) :=
  ⟨(claim_C8.1 ⟨0, 10000000, 100000000⟩).1.mpr (Or.inl (by decide)),
    (claim_C8.1 Kafkav2.defaultPCfg).2.1.mpr
      (fun hb => by
        rcases hb with h | h | h | h <;> revert h <;> decide),
    (claim_C8.2 [Kafkav2.baseRetryDelayOpt 200000000]).1.mpr
      (Or.inr (Or.inr (Or.inr (by decide))))⟩

/-- C9: `RabbitClient.Close` is idempotent — any call after the first
returns nil and leaves the client state untouched: the context is not
cancelled again and the connection is not closed again. -/
theorem claim_C9 (s : Rabbit.ClientState) :
    Rabbit.close ((Rabbit.close s).2) = (Except.ok (), (Rabbit.close s).2) := by
  obtain ⟨cl, conn, x, y⟩ := s
  cases cl <;> rcases conn with _ | c <;> simp [Rabbit.close]

/-- C10: a retry strategy with non-positive `Attempts` never invokes the
operation and `retry.Do` returns nil (success) with no sleeps. -/
theorem claim_C10 {E : Type} (res : Nat → Option E) (next : Nat → Nat) (attempts : Int)
    (d : Nat) (h : attempts ≤ 0) :
    Retry.Do res next attempts d = ⟨none, 0, []⟩ := by
  unfold Retry.Do
  rw [Int.toNat_of_nonpos h]
  rfl

/-- C10 witness: `Attempts = -3` yields success with zero invocations even
for an operation that would always fail. -/
theorem claim_C10_witness :
    Retry.Do (E := Nat) (fun _ => some 1) (fun x => x) (-3) 5 = ⟨none, 0, []⟩ :=
  claim_C10 (fun _ => some 1) (fun x => x) (-3) 5 (by decide)

end Wbf
